import Mathlib

/-!
Shallow embedding of the notification scripts `scripts/post_to_telegram.py`
and `scripts/send_newsletter.py`.

Modelling conventions:
* Python strings are Lean `String`s (lists of unicode scalar values); text
  transformations are carried out over `List Char`.
* `str.strip()` / `str.lower()` are modelled for the ASCII range (the inputs
  manipulated by the scripts); `str.splitlines()` is modelled with the full
  set of line-boundary characters Python recognises.
* The filesystem and the Telegram HTTP endpoint are modelled explicitly:
  a run's filesystem is a `FS` record, environment variables are an `Env`
  record, and the HTTP endpoint is an oracle `api : Nat → Nat` mapping the
  index of the outbound call to the HTTP status code it returns.  A run's
  result is the triple (exit code, list of message payloads sent, final
  content of the delivery-state file).
-/

/-- Whitespace characters stripped by Python's `str.strip()` (ASCII range). -/
def isPySpace (c : Char) : Bool :=
  c = ' ' ∨ c = '\t' ∨ c = '\n' ∨ c = '\r' ∨ c = '\x0b' ∨ c = '\x0c'

/-- Line-boundary characters recognised by Python's `str.splitlines()`. -/
def isLineBreak (c : Char) : Bool :=
  c = '\n' ∨ c = '\r' ∨ c = '\x0b' ∨ c = '\x0c' ∨ c = '\x1c' ∨ c = '\x1d' ∨
  c = '\x1e' ∨ c = '\x85' ∨ c = ' ' ∨ c = ' '

/-- Python `str.lower()` on one character (ASCII range). -/
def lowerChar (c : Char) : Char :=
  if 'A' ≤ c ∧ c ≤ 'Z' then Char.ofNat (c.toNat + 32) else c

/-- Python `str.lower()` (ASCII range). -/
def pyLowerL (l : List Char) : List Char := l.map lowerChar

/-- Drop leading whitespace, as the first half of `str.strip()`. -/
def stripFront (l : List Char) : List Char := l.dropWhile isPySpace

/-- Drop trailing whitespace, as the second half of `str.strip()`. -/
def stripBack (l : List Char) : List Char := (stripFront l.reverse).reverse

/-- Python `str.strip()` with no argument. -/
def pyStripL (l : List Char) : List Char := stripBack (stripFront l)

/-- Python `str.splitlines()`: accumulator holds the current line reversed.
A `"\r\n"` pair counts as a single boundary; a trailing boundary does not
produce a final empty line. -/
def splitlinesAux : List Char → List Char → List (List Char)
  | [], acc => if acc.isEmpty then [] else [acc.reverse]
  | [c], acc =>
    if isLineBreak c then [acc.reverse] else [(c :: acc).reverse]
  | c :: d :: rest, acc =>
    if isLineBreak c then
      if c = '\r' ∧ d = '\n' then acc.reverse :: splitlinesAux rest []
      else acc.reverse :: splitlinesAux (d :: rest) []
    else splitlinesAux (d :: rest) (c :: acc)

/-- Python `str.splitlines()`. -/
def splitlinesL (l : List Char) : List (List Char) := splitlinesAux l []

/-- Python `"\n".join(...)` over raw character lists. -/
def joinNlL : List (List Char) → List Char
  | [] => []
  | [l] => l
  | l :: l2 :: rest => l ++ '\n' :: joinNlL (l2 :: rest)

/-- Python `str.split("\n")` (note: splitting the empty string yields `[""]`). -/
def splitOnNl : List Char → List (List Char)
  | [] => [[]]
  | c :: rest =>
    if c = '\n' then [] :: splitOnNl rest
    else
      match splitOnNl rest with
      | [] => [[c]]
      | l :: ls => (c :: l) :: ls

/-- Code-point comparison of character lists, as Python compares strings. -/
def dataLeB : List Char → List Char → Bool
  | [], _ => true
  | _ :: _, [] => false
  | a :: as, b :: bs =>
    if a.val < b.val then true else if b.val < a.val then false else dataLeB as bs

/-- Python `<=` on strings (code-point lexicographic order). -/
def strLeB (a b : String) : Bool := dataLeB a.data b.data

/-- Insert into a sorted list of strings. -/
def insertSorted (x : String) : List String → List String
  | [] => [x]
  | y :: ys => if strLeB x y then x :: y :: ys else y :: insertSorted x ys

/-- Python `sorted(...)` on a list of strings. -/
def sortStr (l : List String) : List String := l.foldr insertSorted []

namespace Telegram

/-- Python `dict` assignment `metadata[key] = value`: an existing key keeps
its position and gets the new value, a new key is appended. -/
def metaInsert (m : List (String × String)) (k v : String) : List (String × String) :=
  if m.any (fun p => p.1 == k) then m.map (fun p => if p.1 == k then (k, v) else p)
  else m ++ [(k, v)]

/-- Python `dict.get(key)` on the metadata mapping. -/
def metaGet (m : List (String × String)) (k : String) : Option String :=
  (m.find? (fun p => p.1 == k)).map (fun p => p.2)

/-- One iteration of the header loop of `parse_metadata`
(`scripts/post_to_telegram.py`, lines 31-37), for a non-blank line:
if the line contains `":"`, split on the first occurrence, lower-case and
strip the key, strip the value, and insert. -/
def metaLine (m : List (String × String)) (l : List Char) : List (String × String) :=
  if l.contains ':' then
    metaInsert m
      (String.mk (pyLowerL (pyStripL (l.takeWhile (fun c => c != ':')))))
      (String.mk (pyStripL ((l.dropWhile (fun c => c != ':')).tail)))
  else m

/-- Model of `parse_metadata` of `scripts/post_to_telegram.py` (lines 25-40).
The loop scans lines from the start and stops at the first blank line,
setting `body_start` to the index after it; `body_start` stays `0` when no
blank line occurs.  Metadata comes from the scanned (non-blank) lines; the
body is the remaining lines re-joined with `"\n"` and stripped. -/
def parse_metadata (t : String) : List (String × String) × String :=
  let lines := splitlinesL t.data
  let bstart : Nat :=
    match lines.findIdx? (fun l => (pyStripL l).isEmpty) with
    | some i => i + 1
    | none => 0
  ((lines.takeWhile (fun l => !(pyStripL l).isEmpty)).foldl metaLine [],
   String.mk (pyStripL (joinNlL (lines.drop bstart))))

/-- Model of `load_sent_posts` (lines 55-59): if the store file exists, the set of
lines of its stripped content, split on `"\n"`; otherwise the empty set.
The Python `set` is modelled as the list of slugs, used through membership. -/
def load_sent_posts (store : Option String) : List String :=
  match store with
  | some c => (splitOnNl (pyStripL c.data)).map String.mk
  | none => []

/-- Model of `save_sent_post` (lines 62-66): load the current set, add `slug`, and
write the set back sorted and newline-joined.  `sorted(sent)` over the
Python set is modelled as sorting the deduplicated list. -/
def save_sent_post (slug : String) (store : Option String) : String :=
  String.mk (joinNlL ((sortStr ((slug :: load_sent_posts store).dedup)).map String.data))

/-- A run's filesystem: whether `content/posts` exists, the `*.md` files in
it as (filename stem, file content) pairs in glob order, and the content of
`.telegram_sent_posts` (`none` when the file does not exist). -/
structure FS where
  dirExists : Bool
  posts : List (String × String)
  sentFile : Option String

/-- Model of `meta.get("slug", post_file.stem)` for a post file (lines 80-81, 192). -/
def resolveSlug (p : String × String) : String :=
  (metaGet (parse_metadata p.2).1 "slug").getD p.1

/-- Model of `get_unsent_posts` (lines 69-89): empty when the posts directory is
missing; otherwise the post files whose resolved slug is not in the set of
sent slugs. -/
def get_unsent_posts (fs : FS) : List (String × String) :=
  if fs.dirExists then
    fs.posts.filter (fun p => !(load_sent_posts fs.sentFile).contains (resolveSlug p))
  else []

/-- Model of `escape_html` (lines 92-94): the three chained `str.replace` calls.
The replacement strings introduce no character replaced by a later call, so
the chain acts character by character. -/
def escChar (c : Char) : List Char :=
  if c = '&' then "&amp;".data
  else if c = '<' then "&lt;".data
  else if c = '>' then "&gt;".data
  else [c]

/-- Model of `escape_html` over a character list. -/
def escapeHtmlL (l : List Char) : List Char := l.foldr (fun c r => escChar c ++ r) []

/-- Model of `escape_html` (lines 92-94). -/
def escape_html (s : String) : String := String.mk (escapeHtmlL s.data)

/-- Python regex `\w` (ASCII range, as exercised by the scripts). -/
def isWordChar (c : Char) : Bool :=
  ('a' ≤ c ∧ c ≤ 'z') ∨ ('A' ≤ c ∧ c ≤ 'Z') ∨ ('0' ≤ c ∧ c ≤ '9') ∨ c = '_'

/-- Scan for the first triple-backtick, returning the characters before it
and the characters after it.  This is the lazy `[\s\S]*?` of the fence
pattern: the shortest content followed by a closing fence. -/
def findTriple : List Char → Option (List Char × List Char)
  | [] => none
  | c :: rest =>
    if c = '`' ∧ rest.head? = some '`' ∧ rest.tail.head? = some '`' then
      some ([], rest.tail.tail)
    else
      match findTriple rest with
      | some pr => some (c :: pr.1, pr.2)
      | none => none

/-- Attempt the fence pattern ```` ```(\w*)\n([\s\S]*?)``` ```` at the head
of the list: opening fence, greedy word-character language tag, a literal
newline, then the lazy content up to the first closing fence.  Returns the
content (group 2) and the remaining input. -/
def tryCodeBlock (l : List Char) : Option (List Char × List Char) :=
  match l with
  | '`' :: '`' :: '`' :: rest =>
    let lang := rest.takeWhile isWordChar
    match rest.drop lang.length with
    | '\n' :: r3 => findTriple r3
    | _ => none
  | _ => none

/-- The `re.sub` pass of lines 101-107: left-to-right scan, each fence match
replaced by `__CODE_BLOCK_<i>__` while its rendering
`<pre>{escape_html(content.strip())}</pre>` is appended to the block list.
`fuel` bounds the scan; every step consumes at least one character, so the
length of the input is sufficient fuel. -/
def extractCodeBlocks : Nat → List Char → Nat → List Char × List String
  | _, [], _ => ([], [])
  | 0, l, _ => (l, [])
  | fuel + 1, c :: rest, n =>
    match tryCodeBlock (c :: rest) with
    | some (content, after) =>
        let r := extractCodeBlocks fuel after (n + 1)
        (("__CODE_BLOCK_" ++ toString n ++ "__").data ++ r.1,
         ("<pre>" ++ escape_html (String.mk (pyStripL content)) ++ "</pre>") :: r.2)
    | none =>
        let r := extractCodeBlocks fuel rest n
        (c :: r.1, r.2)

/-- Attempt the inline-code pattern `` `([^`]+)` `` at the head of the list. -/
def tryInlineCode (l : List Char) : Option (List Char × List Char) :=
  match l with
  | '`' :: rest =>
      let content := rest.takeWhile (fun c => c != '`')
      if content.isEmpty then none
      else if (rest.drop content.length).head? = some '`' then
        some (content, rest.drop (content.length + 1))
      else none
  | _ => none

/-- The `re.sub` pass of lines 110-115: each inline-code match replaced by
`__INLINE_<i>__` while `<code>{escape_html(content)}</code>` is appended to
the inline list. -/
def extractInlineCodes : Nat → List Char → Nat → List Char × List String
  | _, [], _ => ([], [])
  | 0, l, _ => (l, [])
  | fuel + 1, c :: rest, n =>
    match tryInlineCode (c :: rest) with
    | some (content, after) =>
        let r := extractInlineCodes fuel after (n + 1)
        (("__INLINE_" ++ toString n ++ "__").data ++ r.1,
         ("<code>" ++ escape_html (String.mk content) ++ "</code>") :: r.2)
    | none =>
        let r := extractInlineCodes fuel rest n
        (c :: r.1, r.2)

/-- Whether `pat` is an initial segment of `l`. -/
def startsWithL : List Char → List Char → Bool
  | [], _ => true
  | _ :: _, [] => false
  | p :: ps, c :: cs => p == c && startsWithL ps cs

/-- Python `str.replace(pat, repl)`: replace every non-overlapping occurrence
left to right, continuing after each replacement.  The call sites always pass
a non-empty `pat`, so each step consumes at least one character and the
length of the text is sufficient fuel. -/
def replaceAllL : Nat → List Char → List Char → List Char → List Char
  | _, _, _, [] => []
  | 0, _, _, l => l
  | fuel + 1, pat, repl, c :: rest =>
    if pat ≠ [] ∧ startsWithL pat (c :: rest) then
      repl ++ replaceAllL fuel pat repl ((c :: rest).drop pat.length)
    else c :: replaceAllL fuel pat repl rest

/-- The restore loops of lines 121-124: for `i` ranging over the stored
renderings, replace `"<tagPre><i>__"` by the rendering. -/
def restoreFrom (tagPre : String) : Nat → List String → List Char → List Char
  | _, [], t => t
  | i, b :: bs, t =>
      restoreFrom tagPre (i + 1) bs
        (replaceAllL t.length ((tagPre ++ toString i ++ "__").data) b.data t)

/-- Generic `re.sub` scan: attempt `tryM` at every position left to right;
on a match, emit its output and continue after the match; otherwise emit one
character and advance.  All patterns used consume at least one character on
a match, so the length of the input is sufficient fuel. -/
def applySubs (tryM : List Char → Option (List Char × List Char)) :
    Nat → List Char → List Char
  | _, [] => []
  | 0, l => l
  | fuel + 1, c :: rest =>
    match tryM (c :: rest) with
    | some (out, after) => out ++ applySubs tryM fuel after
    | none => c :: applySubs tryM fuel rest

/-- The lazy `(.+?)` scan for the paired-delimiter patterns `\*\*(.+?)\*\*`,
`__(.+?)__` and `~~(.+?)~~`: consume one non-newline character, then before
each further character check for the two-character closer `dd`. -/
def styleScan (d : Char) : Nat → List Char → List Char → Option (List Char × List Char)
  | _, _, [] => none
  | 0, _, _ => none
  | fuel + 1, acc, c :: rest =>
    if acc ≠ [] ∧ c = d ∧ rest.head? = some d then some (acc.reverse, rest.tail)
    else if c = '\n' then none
    else styleScan d fuel (c :: acc) rest

/-- Attempt a paired two-character delimiter pattern (`**`/`__`/`~~`) at the
head of the list, producing the tag-wrapped content. -/
def tryStylePair (d : Char) (tagO tagC : String) (l : List Char) :
    Option (List Char × List Char) :=
  match l with
  | c1 :: c2 :: rest =>
      if c1 = d ∧ c2 = d then
        match styleScan d rest.length [] rest with
        | some (content, after) => some (tagO.data ++ content ++ tagC.data, after)
        | none => none
      else none
  | _ => none

/-- Line 127: `re.sub(r'\*\*(.+?)\*\*', r'<b>\1</b>', text)`. -/
def subBoldStars (l : List Char) : List Char :=
  applySubs (tryStylePair '*' "<b>" "</b>") l.length l

/-- Line 128: `re.sub(r'__(.+?)__', r'<b>\1</b>', text)`. -/
def subBoldUnders (l : List Char) : List Char :=
  applySubs (tryStylePair '_' "<b>" "</b>") l.length l

/-- Line 131: `re.sub(r'~~(.+?)~~', r'<s>\1</s>', text)`. -/
def subStrike (l : List Char) : List Char :=
  applySubs (tryStylePair '~' "<s>" "</s>") l.length l

/-- The `([^d]+)d(?![*_])` part of the italic patterns after the opening
delimiter: the greedy non-delimiter run (which, as the run cannot extend
past the closing delimiter, admits no backtracking), the closing delimiter,
and the negative lookahead. -/
def italicScan (d : Char) (rest : List Char) : Option (List Char × List Char) :=
  let content := rest.takeWhile (fun c => c != d)
  if content.isEmpty then none
  else
    match rest.drop content.length with
    | _ :: r3 =>
        if r3.head? = some '*' ∨ r3.head? = some '_' then none
        else some (content, r3)
    | [] => none

/-- Lines 129-130: `re.sub(r'(?<![*_])\*([^*]+)\*(?![*_])', r'<i>\1</i>', ...)`
and its underscore analogue.  `prv` is the character of the input preceding
the scan position, for the negative lookbehind; after a match the scan
resumes after the closing delimiter of the input, so `prv` becomes `d`. -/
def subItalic (d : Char) : Nat → Option Char → List Char → List Char
  | _, _, [] => []
  | 0, _, l => l
  | fuel + 1, prv, c :: rest =>
    if c = d ∧ (prv ≠ some '*' ∧ prv ≠ some '_') then
      match italicScan d rest with
      | some (content, after) =>
          "<i>".data ++ content ++ "</i>".data ++ subItalic d fuel (some d) after
      | none => c :: subItalic d fuel (some c) rest
    else c :: subItalic d fuel (some c) rest

/-- Attempt the link pattern `\[([^\]]+)\]\(([^)]+)\)` at the head of the
list (line 134), producing `<a href="url">text</a>`. -/
def tryLink (l : List Char) : Option (List Char × List Char) :=
  match l with
  | '[' :: rest =>
      let txt := rest.takeWhile (fun c => c != ']')
      if txt.isEmpty then none
      else
        match rest.drop txt.length with
        | ']' :: '(' :: r2 =>
            let url := r2.takeWhile (fun c => c != ')')
            if url.isEmpty then none
            else
              match r2.drop url.length with
              | ')' :: r3 =>
                  some ("<a href=\"".data ++ url ++ "\">".data ++ txt ++ "</a>".data, r3)
              | _ => none
        | _ => none
  | _ => none

/-- The image icon of line 137: the script's source file holds the four
code points U+00F0 U+0178 U+2013 U+00BC. -/
def imageIcon : String := "ðŸ–¼"

/-- Attempt the image pattern `!\[([^\]]*)\]\([^)]+\)` at the head of the
list (line 137), producing the icon glyph followed by the alt text. -/
def tryImage (l : List Char) : Option (List Char × List Char) :=
  match l with
  | '!' :: '[' :: rest =>
      let alt := rest.takeWhile (fun c => c != ']')
      match rest.drop alt.length with
      | ']' :: '(' :: r2 =>
          let url := r2.takeWhile (fun c => c != ')')
          if url.isEmpty then none
          else
            match r2.drop url.length with
            | ')' :: r3 => some (imageIcon.data ++ ' ' :: alt, r3)
            | _ => none
      | _ => none
  | _ => none

/-- Backtracking of `\s+(.+)$` when nothing follows the whitespace run `w`:
the regex engine gives whitespace back to `(.+)`, preferring the longest
`\s+`, i.e. the largest index `k ≥ 1` whose character can start `(.+)`
(any character but `"\n"`). -/
def lastNonNlIdx (w : List Char) : Option Nat :=
  (List.range w.length).foldl
    (fun best k => if 1 ≤ k ∧ (w.drop k).head? ≠ some '\n' then some k else best) none

/-- Attempt the header pattern `^#{1,6}\s+(.+)$` (multiline, line 140) at a
line-start position: one to six hashes, at least one whitespace character
(`\s` includes newlines), then at least one non-newline character, ending
before a newline or at the end. -/
def headerScan (l : List Char) : Option (List Char × List Char) :=
  let hs := l.takeWhile (fun c => c == '#')
  if hs.isEmpty ∨ 6 < hs.length then none
  else
    let r0 := l.drop hs.length
    let w := r0.takeWhile isPySpace
    if w.isEmpty then none
    else
      let r1 := r0.drop w.length
      if r1.isEmpty then
        match lastNonNlIdx w with
        | some k =>
            some ((w.drop k).takeWhile (fun c => c != '\n'),
                  (w.drop k).dropWhile (fun c => c != '\n'))
        | none => none
      else
        some (r1.takeWhile (fun c => c != '\n'), r1.dropWhile (fun c => c != '\n'))

/-- Line 140: headers to bold, applied at line starts only (`^` under
`re.MULTILINE`).  `atStart` tracks whether the scan position follows a
newline or is the start of the input. -/
def subHeaders : Nat → Bool → List Char → List Char
  | _, _, [] => []
  | 0, _, l => l
  | fuel + 1, atStart, c :: rest =>
    if atStart then
      match headerScan (c :: rest) with
      | some (content, after) =>
          "<b>".data ++ content ++ "</b>".data ++ subHeaders fuel false after
      | none => c :: subHeaders fuel (c = '\n') rest
    else c :: subHeaders fuel (c = '\n') rest

/-- Attempt `\n{3,}` at the head of the list (line 143): three newlines and
then the rest of the greedy newline run. -/
def tryCollapse (l : List Char) : Option (List Char × List Char) :=
  match l with
  | '\n' :: '\n' :: '\n' :: rest =>
      some ("\n\n".data, rest.dropWhile (fun c => c == '\n'))
  | _ => none

/-- Line 143: collapse three or more consecutive newlines to two. -/
def collapseNl (l : List Char) : List Char := applySubs tryCollapse l.length l

/-- Model of `convert_markdown_to_telegram_html` (lines 97-145), as the composition
of its `re.sub`/`str.replace` passes in source order: extract fences, extract
inline code, escape the remaining text, restore fences and inline code, then
bold, italic, strikethrough, links, images, headers, newline collapsing, and
a final `strip()`. -/
def convert_markdown_to_telegram_html (text : String) : String :=
  let t0 := text.data
  let cb := extractCodeBlocks t0.length t0 0
  let ic := extractInlineCodes cb.1.length cb.1 0
  let t3 := escapeHtmlL ic.1
  let t4 := restoreFrom "__CODE_BLOCK_" 0 cb.2 t3
  let t5 := restoreFrom "__INLINE_" 0 ic.2 t4
  let t6 := subBoldStars t5
  let t7 := subBoldUnders t6
  let t8 := subItalic '*' t7.length none t7
  let t9 := subItalic '_' t8.length none t8
  let t10 := subStrike t9
  let t11 := applySubs tryLink t10.length t10
  let t12 := applySubs tryImage t11.length t11
  let t13 := subHeaders t12.length true t12
  let t14 := collapseNl t13
  String.mk (pyStripL t14)

/-- The link icon of line 160: the script's source file holds the four code
points U+00F0 U+0178 U+201D U+2014. -/
def linkIcon : String := "ðŸ”—"

/-- Model of `build_message` (lines 148-164). -/
def build_message (meta : List (String × String)) (body : String) (url : String) : String :=
  let title := (metaGet meta "title").getD "New post"
  String.intercalate "\n"
    ["<b>" ++ escape_html title ++ "</b>",
     "",
     convert_markdown_to_telegram_html body,
     "",
     linkIcon ++ " <a href=\"" ++ url ++ "\">Read more</a>",
     "",
     "@lab_log"]

/-- Python `str.rstrip("/")` applied to the site URL (line 174). -/
def rstripSlashes (s : String) : String :=
  String.mk ((s.data.reverse.dropWhile (fun c => c == '/')).reverse)

/-- Model of `meta.get("link") or f"{siteurl}/posts/{slug}/"` (line 193): Python `or`
falls through on a missing or empty value. -/
def resolveLink (siteurl : String) (meta : List (String × String)) (slug : String) : String :=
  match metaGet meta "link" with
  | some l => if l = "" then siteurl ++ "/posts/" ++ slug ++ "/" else l
  | none => siteurl ++ "/posts/" ++ slug ++ "/"

/-- The message payload the loop body of `main` builds for one post file
(lines 191-195): parse the file, resolve slug and link, build the message. -/
def messageOf (siteurl : String) (p : String × String) : String :=
  build_message (parse_metadata p.2).1 (parse_metadata p.2).2
    (resolveLink siteurl (parse_metadata p.2).1 (resolveSlug p))

/-- The dispatch loop of `main` (lines 188-214) over the unsent posts:
for each post, parse it, resolve slug and link, build the message, send it
(the oracle `api` gives the HTTP status of the `k`-th call of the run); on a
non-200 status return exit code 1 at once, otherwise persist the slug and
continue.  Result: (exit code, messages sent, final store content). -/
def postLoop (siteurl : String) (api : Nat → Nat) :
    List (String × String) → Option String → Nat → Nat × List String × Option String
  | [], store, _ => (0, [], store)
  | p :: ps, store, k =>
    let message := messageOf siteurl p
    if api k ≠ 200 then (1, [message], store)
    else
      let r := postLoop siteurl api ps (some (save_sent_post (resolveSlug p) store)) (k + 1)
      (r.1, message :: r.2.1, r.2.2)

/-- The environment variables read by `main`. -/
structure Env where
  skip : Option String
  botToken : Option String
  chatId : Option String
  siteurl : Option String

/-- Python truthiness of an environment lookup: set and non-empty. -/
def truthy : Option String → Bool
  | none => false
  | some s => !(s == "")

/-- Model of `main` (lines 167-216): the `SKIP_TELEGRAM` opt-out, the credential
check, post selection, and the dispatch loop. -/
def mainRun (env : Env) (fs : FS) (api : Nat → Nat) : Nat × List String × Option String :=
  if env.skip = some "1" then (0, [], fs.sentFile)
  else if !truthy env.botToken || !truthy env.chatId then (1, [], fs.sentFile)
  else
    let siteurl := rstripSlashes (env.siteurl.getD "https://kmamaroziqov.github.io")
    let unsent := get_unsent_posts fs
    if unsent.isEmpty then (0, [], fs.sentFile)
    else postLoop siteurl api unsent fs.sentFile 0

/-- The slugs of the posts the dispatch loop delivers: the longest initial
run of posts whose API calls all return status 200. -/
def succSlugs (api : Nat → Nat) : Nat → List (String × String) → List String
  | _, [] => []
  | k, p :: ps => if api k = 200 then resolveSlug p :: succSlugs api (k + 1) ps else []

end Telegram

namespace Newsletter

/-- Model of `parse_metadata` of `scripts/send_newsletter.py` (lines 21-29): the same
header scan as the Telegram parser, returning only the metadata mapping. -/
def parse_metadata (t : String) : List (String × String) :=
  (( splitlinesL t.data).takeWhile (fun l => !(pyStripL l).isEmpty)).foldl Telegram.metaLine []

end Newsletter

/-! ### Specification-side definitions used by the properties -/

/-- A slug the flat newline-delimited store represents faithfully: non-empty
and free of whitespace (in particular free of newlines, and unaffected by the
`strip()` in `load_sent_posts`). -/
def storable (s : String) : Prop :=
  s ≠ "" ∧ ∀ c ∈ s.data, isPySpace c = false

instance : DecidablePred storable := fun s => by
  unfold storable
  infer_instance

/-- The invariant satisfied by every pair the metadata parser produces:
the key is colon-free, strip-fixed, lower-fixed and break-free; the value is
strip-fixed and break-free. -/
def goodPair (p : String × String) : Prop :=
  (∀ c ∈ p.1.data, c ≠ ':') ∧ pyStripL p.1.data = p.1.data ∧ pyLowerL p.1.data = p.1.data ∧
  (∀ c ∈ p.1.data, isLineBreak c = false) ∧
  pyStripL p.2.data = p.2.data ∧ (∀ c ∈ p.2.data, isLineBreak c = false)

/-- The header text rebuilt from a metadata mapping as `"key: value"` lines
joined with newlines (the reconstruction named by the idempotence property). -/
def reconstructMeta (m : List (String × String)) : String :=
  String.mk (joinNlL (m.map (fun p => p.1.data ++ ':' :: ' ' :: p.2.data)))

/-! ### Character-level lemmas -/

theorem toNat_ofNat_small (n : Nat) (h : n < 55296) : (Char.ofNat n).toNat = n := by
  have hv : n.isValidChar := Or.inl h
  rw [Char.ofNat, dif_pos hv]
  simp [Char.ofNatAux, Char.toNat, UInt32.toNat, BitVec.toNat_ofNatLt]

theorem char_le_iff_toNat {a b : Char} : a ≤ b ↔ a.toNat ≤ b.toNat := by
  rw [Char.le_def, UInt32.le_def]
  exact ⟨fun h => h, fun h => h⟩

theorem char_eq_iff_toNat {c d : Char} : c = d ↔ c.toNat = d.toNat := by
  constructor
  · intro h; rw [h]
  · intro h
    rw [← Char.ofNat_toNat c, h, Char.ofNat_toNat]

theorem lowerChar_cases (c : Char) :
    lowerChar c = c ∨
    (65 ≤ c.toNat ∧ c.toNat ≤ 90 ∧ (lowerChar c).toNat = c.toNat + 32) := by
  unfold lowerChar
  by_cases h : 'A' ≤ c ∧ c ≤ 'Z'
  · refine Or.inr ?_
    have h1 := char_le_iff_toNat.mp h.1
    have h2 := char_le_iff_toNat.mp h.2
    have h6 : ('A' : Char).toNat = 65 := by decide
    have h5 : ('Z' : Char).toNat = 90 := by decide
    rw [if_pos h]
    refine ⟨by omega, by omega, toNat_ofNat_small _ (by omega)⟩
  · exact Or.inl (if_neg h)

theorem lowerChar_idem (c : Char) : lowerChar (lowerChar c) = lowerChar c := by
  rcases lowerChar_cases c with h | ⟨h1, h2, h3⟩
  · rw [h, h]
  · rcases lowerChar_cases (lowerChar c) with h' | ⟨h1', h2', _⟩
    · exact h'
    · omega

theorem isPySpace_eq_false_of (c : Char)
    (h : c.toNat ≠ 32 ∧ c.toNat ≠ 9 ∧ c.toNat ≠ 10 ∧ c.toNat ≠ 13 ∧
         c.toNat ≠ 11 ∧ c.toNat ≠ 12) : isPySpace c = false := by
  simp only [isPySpace, decide_eq_false_iff_not]
  rintro (h' | h' | h' | h' | h' | h') <;>
    first
    | exact h.1 (char_eq_iff_toNat.mp h')
    | exact h.2.1 (char_eq_iff_toNat.mp h')
    | exact h.2.2.1 (char_eq_iff_toNat.mp h')
    | exact h.2.2.2.1 (char_eq_iff_toNat.mp h')
    | exact h.2.2.2.2.1 (char_eq_iff_toNat.mp h')
    | exact h.2.2.2.2.2 (char_eq_iff_toNat.mp h')

theorem isLineBreak_eq_false_of (c : Char)
    (h : c.toNat ≠ 10 ∧ c.toNat ≠ 13 ∧ c.toNat ≠ 11 ∧ c.toNat ≠ 12 ∧ c.toNat ≠ 28 ∧
         c.toNat ≠ 29 ∧ c.toNat ≠ 30 ∧ c.toNat ≠ 133 ∧ c.toNat ≠ 8232 ∧ c.toNat ≠ 8233) :
    isLineBreak c = false := by
  simp only [isLineBreak, decide_eq_false_iff_not]
  rintro (h' | h' | h' | h' | h' | h' | h' | h' | h' | h') <;>
    first
    | exact h.1 (char_eq_iff_toNat.mp h')
    | exact h.2.1 (char_eq_iff_toNat.mp h')
    | exact h.2.2.1 (char_eq_iff_toNat.mp h')
    | exact h.2.2.2.1 (char_eq_iff_toNat.mp h')
    | exact h.2.2.2.2.1 (char_eq_iff_toNat.mp h')
    | exact h.2.2.2.2.2.1 (char_eq_iff_toNat.mp h')
    | exact h.2.2.2.2.2.2.1 (char_eq_iff_toNat.mp h')
    | exact h.2.2.2.2.2.2.2.1 (char_eq_iff_toNat.mp h')
    | exact h.2.2.2.2.2.2.2.2.1 (char_eq_iff_toNat.mp h')
    | exact h.2.2.2.2.2.2.2.2.2 (char_eq_iff_toNat.mp h')

theorem isPySpace_lowerChar (c : Char) : isPySpace (lowerChar c) = isPySpace c := by
  rcases lowerChar_cases c with h | ⟨h1, h2, h3⟩
  · rw [h]
  · rw [isPySpace_eq_false_of c (by omega), isPySpace_eq_false_of (lowerChar c) (by omega)]

theorem isLineBreak_lowerChar (c : Char) : isLineBreak (lowerChar c) = isLineBreak c := by
  rcases lowerChar_cases c with h | ⟨h1, h2, h3⟩
  · rw [h]
  · rw [isLineBreak_eq_false_of c (by omega), isLineBreak_eq_false_of (lowerChar c) (by omega)]

theorem lowerChar_ne_colon {c : Char} (h : c ≠ ':') : lowerChar c ≠ ':' := by
  rcases lowerChar_cases c with h' | ⟨h1, h2, h3⟩
  · rw [h']; exact h
  · intro hc
    have : (lowerChar c).toNat = 58 := by rw [hc]; decide
    omega

/-! ### Lemmas about `pyLowerL` and `pyStripL` -/

theorem pyLowerL_idem (l : List Char) : pyLowerL (pyLowerL l) = pyLowerL l := by
  induction l with
  | nil => rfl
  | cons c cs ih =>
      simp only [pyLowerL, List.map_cons] at *
      rw [lowerChar_idem]
      exact congrArg _ (by simpa [pyLowerL] using ih)

theorem stripBack_def (l : List Char) : stripBack l = List.rdropWhile isPySpace l := rfl

theorem stripFront_idem (l : List Char) : stripFront (stripFront l) = stripFront l :=
  List.dropWhile_idempotent _ _

theorem stripBack_idem (l : List Char) : stripBack (stripBack l) = stripBack l := by
  rw [stripBack_def, stripBack_def, List.rdropWhile_idempotent]

theorem stripFront_split (l : List Char) : l.takeWhile isPySpace ++ stripFront l = l := by
  unfold stripFront
  exact List.takeWhile_append_dropWhile _ _

theorem stripBack_split (l : List Char) : ∃ t, stripBack l ++ t = l ∧ ∀ c ∈ t, isPySpace c := by
  refine ⟨(l.reverse.takeWhile isPySpace).reverse, ?_, ?_⟩
  · unfold stripBack stripFront
    rw [← List.reverse_append, List.takeWhile_append_dropWhile, List.reverse_reverse]
  · intro c hc
    rw [List.mem_reverse] at hc
    exact List.mem_takeWhile_imp hc

theorem stripFront_head?_not {l : List Char} {c : Char} (h : (stripFront l).head? = some c) :
    isPySpace c = false := by
  induction l with
  | nil => simp [stripFront] at h
  | cons a as ih =>
      by_cases ha : isPySpace a
      · rw [show stripFront (a :: as) = stripFront as by simp [stripFront, ha]] at h
        exact ih h
      · rw [show stripFront (a :: as) = a :: as by simp [stripFront, ha]] at h
        simp only [List.head?_cons, Option.some.injEq] at h
        rw [← h]
        exact Bool.not_eq_true _ ▸ (by simpa using ha)

theorem stripFront_noop {l : List Char} (h : ∀ c, l.head? = some c → isPySpace c = false) :
    stripFront l = l := by
  cases l with
  | nil => rfl
  | cons c cs => simp [stripFront, List.dropWhile_cons, h c rfl]

theorem pyStripL_idem (l : List Char) : pyStripL (pyStripL l) = pyStripL l := by
  unfold pyStripL
  by_cases h : stripBack (stripFront l) = []
  · rw [h]
    rfl
  · have hSF : stripFront (stripBack (stripFront l)) = stripBack (stripFront l) := by
      apply stripFront_noop
      intro c hc
      obtain ⟨t, ht, -⟩ := stripBack_split (stripFront l)
      cases hsb : stripBack (stripFront l) with
      | nil => exact absurd hsb h
      | cons b bs =>
          rw [hsb] at hc ht
          simp only [List.head?_cons, Option.some.injEq] at hc
          subst hc
          apply @stripFront_head?_not l
          rw [← ht]
          rfl
    rw [hSF, stripBack_idem]

theorem pyStripL_cons_ws {c : Char} (h : isPySpace c = true) (l : List Char) :
    pyStripL (c :: l) = pyStripL l := by
  unfold pyStripL
  congr 1
  simp [stripFront, List.dropWhile_cons, h]

theorem mem_stripFront {c : Char} {l : List Char} (h : c ∈ stripFront l) : c ∈ l := by
  have := stripFront_split l
  rw [← this]
  exact List.mem_append_right _ h

theorem mem_pyStripL {c : Char} {l : List Char} (h : c ∈ pyStripL l) : c ∈ l := by
  unfold pyStripL at h
  obtain ⟨t, ht, -⟩ := stripBack_split (stripFront l)
  apply @mem_stripFront c l
  rw [← ht]
  exact List.mem_append_left _ h

theorem pyStripL_eq_nil_iff {l : List Char} : pyStripL l = [] ↔ ∀ c ∈ l, isPySpace c := by
  constructor
  · intro h c hc
    unfold pyStripL at h
    rw [stripBack_def, List.rdropWhile_eq_nil_iff] at h
    rw [← stripFront_split l] at hc
    rcases List.mem_append.mp hc with h' | h'
    · exact List.mem_takeWhile_imp h'
    · exact h c h'
  · intro h
    unfold pyStripL
    have : stripFront l = [] := by
      rw [stripFront, List.dropWhile_eq_nil_iff]
      exact h
    rw [this]
    rfl

theorem stripFront_lower_comm (l : List Char) :
    stripFront (pyLowerL l) = pyLowerL (stripFront l) := by
  unfold stripFront pyLowerL
  rw [List.dropWhile_map]
  have hp : (isPySpace ∘ lowerChar) = isPySpace := by
    funext c
    simp [Function.comp, isPySpace_lowerChar]
  rw [hp]

theorem stripBack_lower_comm (l : List Char) :
    stripBack (pyLowerL l) = pyLowerL (stripBack l) := by
  unfold stripBack
  rw [show (pyLowerL l).reverse = pyLowerL l.reverse by simp [pyLowerL]]
  rw [stripFront_lower_comm]
  simp [pyLowerL]

theorem pyStripL_lower_comm (l : List Char) :
    pyStripL (pyLowerL l) = pyLowerL (pyStripL l) := by
  unfold pyStripL
  rw [stripFront_lower_comm, stripBack_lower_comm]

/-! ### Lemmas about `splitlinesL`, `joinNlL`, `splitOnNl` -/

theorem splitlinesAux_cons_nonbreak {c : Char} (h : isLineBreak c = false) (rest acc : List Char) :
    splitlinesAux (c :: rest) acc = splitlinesAux rest (c :: acc) := by
  cases rest with
  | nil => simp [splitlinesAux, h]
  | cons d r => simp [splitlinesAux, h]

theorem splitlinesAux_cons_nl (rest acc : List Char) :
    splitlinesAux ('\n' :: rest) acc = acc.reverse :: splitlinesAux rest [] := by
  cases rest with
  | nil => simp [splitlinesAux, isLineBreak]
  | cons d r => simp [splitlinesAux, isLineBreak]

theorem splitlinesAux_nil (acc : List Char) :
    splitlinesAux [] acc = if acc.isEmpty then [] else [acc.reverse] := rfl

theorem splitlinesAux_line {l : List Char} (hl : ∀ c ∈ l, isLineBreak c = false) :
    ∀ (rest acc : List Char), splitlinesAux (l ++ rest) acc = splitlinesAux rest (l.reverse ++ acc) := by
  induction l with
  | nil => intro rest acc; simp
  | cons c l' ih =>
      intro rest acc
      rw [List.cons_append, splitlinesAux_cons_nonbreak (hl c (by simp)) _ _,
        ih (fun x hx => hl x (by simp [hx])) rest (c :: acc)]
      simp

theorem splitlines_join (ls : List (List Char))
    (h : ∀ l ∈ ls, (∀ c ∈ l, isLineBreak c = false) ∧ l ≠ []) :
    splitlinesL (joinNlL ls) = ls := by
  induction ls with
  | nil => rfl
  | cons l rest ih =>
      cases rest with
      | nil =>
          show splitlinesAux (joinNlL [l]) [] = [l]
          have hl := h l (by simp)
          rw [show joinNlL [l] = l ++ [] by simp [joinNlL],
            splitlinesAux_line hl.1 [] [], splitlinesAux_nil]
          have : l.reverse ++ [] ≠ [] := by simp [hl.2]
          simp only [List.isEmpty_iff, if_neg this]
          simp
      | cons l2 rest2 =>
          show splitlinesAux (joinNlL (l :: l2 :: rest2)) [] = l :: (l2 :: rest2)
          have hl := h l (by simp)
          rw [show joinNlL (l :: l2 :: rest2) = l ++ '\n' :: joinNlL (l2 :: rest2) from rfl,
            splitlinesAux_line hl.1 _ [], splitlinesAux_cons_nl]
          have := ih (fun x hx => h x (by simp [hx]))
          rw [show splitlinesAux (joinNlL (l2 :: rest2)) [] = splitlinesL (joinNlL (l2 :: rest2)) from rfl,
            this]
          simp

theorem splitlinesAux_breakFree :
    ∀ (n : Nat) (l : List Char), l.length ≤ n → ∀ (acc : List Char),
      (∀ c ∈ acc, isLineBreak c = false) →
      ∀ out ∈ splitlinesAux l acc, ∀ c ∈ out, isLineBreak c = false := by
  intro n
  induction n with
  | zero =>
      intro l hlen acc hacc out hout
      have : l = [] := List.length_eq_zero.mp (Nat.le_zero.mp hlen)
      subst this
      rw [splitlinesAux_nil] at hout
      by_cases he : acc.isEmpty
      · simp [he] at hout
      · simp only [if_neg he, List.mem_singleton] at hout
        subst hout
        intro c hc
        exact hacc c (List.mem_reverse.mp hc)
  | succ n ih =>
      intro l hlen acc hacc out hout
      match l with
      | [] =>
          rw [splitlinesAux_nil] at hout
          by_cases he : acc.isEmpty
          · simp [he] at hout
          · simp only [if_neg he, List.mem_singleton] at hout
            subst hout
            intro c hc
            exact hacc c (List.mem_reverse.mp hc)
      | [c] =>
          simp only [splitlinesAux] at hout
          by_cases hb : isLineBreak c
          · simp only [hb, if_pos] at hout
            simp only [List.mem_singleton] at hout
            subst hout
            intro x hx
            exact hacc x (List.mem_reverse.mp hx)
          · simp only [hb, Bool.false_eq_true, if_neg, List.mem_singleton,
              not_false_eq_true] at hout
            subst hout
            intro x hx
            rw [List.mem_reverse] at hx
            rcases List.mem_cons.mp hx with h' | h'
            · subst h'; simpa using hb
            · exact hacc x h'
      | c :: d :: rest =>
          simp only [splitlinesAux] at hout
          by_cases hb : isLineBreak c
          · simp only [hb, if_pos] at hout
            by_cases hcd : c = '\r' ∧ d = '\n'
            · simp only [hcd, if_pos, and_self] at hout
              rcases List.mem_cons.mp hout with h' | h'
              · subst h'
                intro x hx
                exact hacc x (List.mem_reverse.mp hx)
              · exact ih rest (by simp at hlen ⊢; omega) [] (by simp) out h'
            · simp only [if_neg hcd] at hout
              rcases List.mem_cons.mp hout with h' | h'
              · subst h'
                intro x hx
                exact hacc x (List.mem_reverse.mp hx)
              · exact ih (d :: rest) (by simp at hlen ⊢; omega) [] (by simp) out h'
          · simp only [hb, Bool.false_eq_true, if_neg, not_false_eq_true] at hout
            refine ih (d :: rest) (by simp at hlen ⊢; omega) (c :: acc) ?_ out hout
            intro x hx
            rcases List.mem_cons.mp hx with h' | h'
            · subst h'; simpa using hb
            · exact hacc x h'

theorem splitlinesL_breakFree {t : List Char} :
    ∀ out ∈ splitlinesL t, ∀ c ∈ out, isLineBreak c = false := by
  intro out hout
  exact splitlinesAux_breakFree t.length t (Nat.le_refl _) [] (by simp) out hout

theorem splitOnNl_no_nl {l : List Char} (h : '\n' ∉ l) : splitOnNl l = [l] := by
  induction l with
  | nil => rfl
  | cons c rest ih =>
      have hc : ¬(c = '\n') := fun hc => h (by simp [hc])
      have hr : '\n' ∉ rest := fun hr => h (by simp [hr])
      simp only [splitOnNl, if_neg hc, ih hr]

theorem splitOnNl_line {l : List Char} (h : '\n' ∉ l) (r : List Char) :
    splitOnNl (l ++ '\n' :: r) = l :: splitOnNl r := by
  induction l with
  | nil => simp [splitOnNl]
  | cons c rest ih =>
      have hc : ¬(c = '\n') := fun hc => h (by simp [hc])
      have hr : '\n' ∉ rest := fun hr => h (by simp [hr])
      simp only [List.cons_append, splitOnNl, if_neg hc]
      rw [show splitOnNl (rest.append ('\n' :: r)) = rest :: splitOnNl r from ih hr]

theorem splitOnNl_join {ls : List (List Char)} (h : ∀ l ∈ ls, '\n' ∉ l) (hne : ls ≠ []) :
    splitOnNl (joinNlL ls) = ls := by
  induction ls with
  | nil => exact absurd rfl hne
  | cons l rest ih =>
      cases rest with
      | nil => exact splitOnNl_no_nl (h l (by simp))
      | cons l2 rest2 =>
          rw [show joinNlL (l :: l2 :: rest2) = l ++ '\n' :: joinNlL (l2 :: rest2) from rfl,
            splitOnNl_line (h l (by simp)),
            ih (fun x hx => h x (by simp [hx])) (by simp)]

/-! ### Lemmas about the delivery-state store -/

theorem mem_insertSorted (a x : String) (l : List String) :
    a ∈ insertSorted x l ↔ a = x ∨ a ∈ l := by
  induction l with
  | nil => simp [insertSorted]
  | cons y ys ih =>
      simp only [insertSorted]
      split
      · simp
      · simp only [List.mem_cons, ih]
        tauto

theorem mem_sortStr (a : String) (l : List String) : a ∈ sortStr l ↔ a ∈ l := by
  induction l with
  | nil => simp [sortStr]
  | cons y ys ih =>
      simp only [sortStr, List.foldr] at *
      rw [mem_insertSorted, ih]
      simp

theorem string_ne_empty_iff {s : String} : s ≠ "" ↔ s.data ≠ [] := by
  constructor
  · intro h hd
    exact h (by cases s with | mk d => simp at hd; simp [hd])
  · intro h he
    rw [he] at h
    exact h rfl

theorem data_head?_not_space {s : String} (hs : storable s) :
    ∀ c, s.data.head? = some c → isPySpace c = false := by
  intro c hc
  exact hs.2 c (by
    cases hd : s.data with
    | nil => rw [hd] at hc; simp at hc
    | cons a as =>
        rw [hd] at hc
        simp only [List.head?_cons, Option.some.injEq] at hc
        simp [hd, ← hc])

theorem mem_of_getLast?Some {l : List Char} {c : Char} (h : l.getLast? = some c) : c ∈ l := by
  cases l with
  | nil => simp at h
  | cons a as =>
      have hne : (a :: as) ≠ [] := by simp
      rw [List.getLast?_eq_getLast _ hne] at h
      simp only [Option.some.injEq] at h
      rw [← h]
      exact List.getLast_mem hne

theorem data_getLast?_not_space {s : String} (hs : storable s) :
    ∀ c, s.data.getLast? = some c → isPySpace c = false := by
  intro c hc
  exact hs.2 c (mem_of_getLast?Some hc)

theorem getLast?_cons_of_ne_nil {c : Char} {x : List Char} (h : x ≠ []) :
    (c :: x).getLast? = x.getLast? := by
  cases x with
  | nil => exact absurd rfl h
  | cons b bs => exact List.getLast?_cons_cons ..

theorem joinNlL_head? {l : List Char} (ls : List (List Char)) (hl : l ≠ []) :
    (joinNlL (l :: ls)).head? = l.head? := by
  cases ls with
  | nil => rfl
  | cons l2 rest =>
      rw [show joinNlL (l :: l2 :: rest) = l ++ '\n' :: joinNlL (l2 :: rest) from rfl]
      cases l with
      | nil => exact absurd rfl hl
      | cons c cs => rfl

theorem joinNlL_getLast? {ls : List (List Char)} {l : List Char} (hlast : ls.getLast? = some l)
    (hl : l ≠ []) (hall : ∀ x ∈ ls, x ≠ []) : (joinNlL ls).getLast? = l.getLast? := by
  induction ls with
  | nil => simp at hlast
  | cons a rest ih =>
      cases rest with
      | nil =>
          simp only [List.getLast?_singleton, Option.some.injEq] at hlast
          subst hlast
          rfl
      | cons b rest2 =>
          have h2 : (b :: rest2).getLast? = some l := by
            rw [← hlast]
            simp [List.getLast?_cons_cons]
          rw [show joinNlL (a :: b :: rest2) = a ++ '\n' :: joinNlL (b :: rest2) from rfl]
          have hbne : joinNlL (b :: rest2) ≠ [] := by
            intro h0
            have hb := hall b (by simp)
            cases rest2 with
            | nil => exact hb (by simpa [joinNlL] using h0)
            | cons c cs =>
                rw [show joinNlL (b :: c :: cs) = b ++ '\n' :: joinNlL (c :: cs) from rfl] at h0
                simp at h0
          rw [List.getLast?_append_cons, getLast?_cons_of_ne_nil hbne]
          exact ih h2 (fun x hx => hall x (by simp [hx]))

theorem pyStripL_noop {l : List Char}
    (hh : ∀ c, l.head? = some c → isPySpace c = false)
    (hl : ∀ c, l.getLast? = some c → isPySpace c = false) : pyStripL l = l := by
  unfold pyStripL
  rw [stripFront_noop hh, stripBack_def, List.rdropWhile_eq_self_iff.mpr]
  intro hne hcon
  have h1 : l.getLast? = some (l.getLast hne) := List.getLast?_eq_getLast l hne
  have h2 := hl _ h1
  rw [h2] at hcon
  exact Bool.false_ne_true hcon

theorem mk_data_str (s : String) : String.mk s.data = s := rfl

theorem map_mk_data (xs : List String) : (xs.map String.data).map String.mk = xs := by
  induction xs with
  | nil => rfl
  | cons x rest ih => simp only [List.map_cons, mk_data_str, ih]

theorem join_storable_strip (xs : List String) (hne : xs ≠ [])
    (hall : ∀ x ∈ xs, storable x) :
    pyStripL (joinNlL (xs.map String.data)) = joinNlL (xs.map String.data) := by
  apply pyStripL_noop
  · intro c hc
    cases xs with
    | nil => exact absurd rfl hne
    | cons x0 rest =>
        rw [List.map_cons,
          joinNlL_head? _ (string_ne_empty_iff.mp (hall x0 (by simp)).1)] at hc
        exact data_head?_not_space (hall x0 (by simp)) c hc
  · intro c hc
    have hmne : xs.map String.data ≠ [] := by
      intro h0
      exact hne (List.map_eq_nil_iff.mp h0)
    have hm : (xs.map String.data).getLast? =
        some ((xs.map String.data).getLast hmne) := List.getLast?_eq_getLast _ hmne
    have hLmem : (xs.map String.data).getLast hmne ∈ xs.map String.data :=
      List.getLast_mem hmne
    obtain ⟨x, hxmem, hxeq⟩ := List.mem_map.mp hLmem
    have hxst := hall x hxmem
    rw [joinNlL_getLast? hm (by rw [← hxeq]; exact string_ne_empty_iff.mp hxst.1)
      (by
        intro y hy
        obtain ⟨z, hz, hzeq⟩ := List.mem_map.mp hy
        rw [← hzeq]
        exact string_ne_empty_iff.mp (hall z hz).1)] at hc
    rw [← hxeq] at hc
    exact data_getLast?_not_space hxst c hc

theorem load_save (slug : String) (store : Option String)
    (hs : storable slug) (hall : ∀ x ∈ Telegram.load_sent_posts store, storable x) :
    Telegram.load_sent_posts (some (Telegram.save_sent_post slug store)) =
      sortStr ((slug :: Telegram.load_sent_posts store).dedup) := by
  set xs := sortStr ((slug :: Telegram.load_sent_posts store).dedup) with hxs
  have hmem : ∀ a, a ∈ xs ↔ a = slug ∨ a ∈ Telegram.load_sent_posts store := by
    intro a
    rw [hxs, mem_sortStr, List.mem_dedup, List.mem_cons]
  have hxall : ∀ x ∈ xs, storable x := by
    intro x hx
    rcases (hmem x).mp hx with h | h
    · rw [h]; exact hs
    · exact hall x h
  have hne : xs ≠ [] := by
    intro h0
    have := (hmem slug).mpr (Or.inl rfl)
    rw [h0] at this
    simp at this
  show (splitOnNl (pyStripL (String.mk (joinNlL (xs.map String.data))).data)).map String.mk = xs
  rw [show (String.mk (joinNlL (xs.map String.data))).data = joinNlL (xs.map String.data) from rfl,
    join_storable_strip xs hne hxall,
    splitOnNl_join (by
      intro l hl hnl
      obtain ⟨z, hz, hzeq⟩ := List.mem_map.mp hl
      have := (hxall z hz).2 '\n' (by rw [hzeq]; exact hnl)
      exact absurd this (by decide))
      (by
        intro h0
        exact hne (List.map_eq_nil_iff.mp h0)),
    map_mk_data]

theorem mem_load_save (s slug : String) (store : Option String)
    (hs : storable slug) (hall : ∀ x ∈ Telegram.load_sent_posts store, storable x) :
    s ∈ Telegram.load_sent_posts (some (Telegram.save_sent_post slug store)) ↔
      s = slug ∨ s ∈ Telegram.load_sent_posts store := by
  rw [load_save slug store hs hall, mem_sortStr, List.mem_dedup, List.mem_cons]

theorem load_save_storable (slug : String) (store : Option String)
    (hs : storable slug) (hall : ∀ x ∈ Telegram.load_sent_posts store, storable x) :
    ∀ x ∈ Telegram.load_sent_posts (some (Telegram.save_sent_post slug store)), storable x := by
  intro x hx
  rcases (mem_load_save x slug store hs hall).mp hx with h | h
  · rw [h]; exact hs
  · exact hall x h

theorem postLoop_store (siteurl : String) (api : Nat → Nat) :
    ∀ (posts : List (String × String)) (store : Option String) (k : Nat),
      (∀ x ∈ Telegram.load_sent_posts store, storable x) →
      (∀ p ∈ posts, storable (Telegram.resolveSlug p)) →
      ∀ s, s ∈ Telegram.load_sent_posts (Telegram.postLoop siteurl api posts store k).2.2 ↔
        s ∈ Telegram.load_sent_posts store ∨ s ∈ Telegram.succSlugs api k posts := by
  intro posts
  induction posts with
  | nil =>
      intro store k _ _ s
      simp [Telegram.postLoop, Telegram.succSlugs]
  | cons p ps ih =>
      intro store k hall hslugs s
      by_cases hapi : api k = 200
      · have hsl := hslugs p (by simp)
        rw [show (Telegram.postLoop siteurl api (p :: ps) store k).2.2 =
            (Telegram.postLoop siteurl api ps
              (some (Telegram.save_sent_post (Telegram.resolveSlug p) store)) (k + 1)).2.2 by
          simp [Telegram.postLoop, hapi, Telegram.resolveSlug]]
        rw [ih _ (k + 1) (load_save_storable _ _ hsl hall)
          (fun q hq => hslugs q (by simp [hq])) s]
        rw [mem_load_save s _ store hsl hall]
        rw [show Telegram.succSlugs api k (p :: ps) =
            Telegram.resolveSlug p :: Telegram.succSlugs api (k + 1) ps by
          simp [Telegram.succSlugs, hapi]]
        simp only [List.mem_cons]
        tauto
      · rw [show (Telegram.postLoop siteurl api (p :: ps) store k).2.2 = store by
          simp [Telegram.postLoop, hapi]]
        rw [show Telegram.succSlugs api k (p :: ps) = [] by
          simp [Telegram.succSlugs, hapi]]
        simp

/-! ### Lemmas about the metadata parser (for the idempotence property) -/

theorem mem_of_takeWhile {α : Type} {p : α → Bool} {l : List α} {x : α}
    (h : x ∈ l.takeWhile p) : x ∈ l := by
  have hs := @List.takeWhile_append_dropWhile _ p l
  rw [← hs]
  exact List.mem_append_left _ h

theorem mem_of_dropWhile {α : Type} {p : α → Bool} {l : List α} {x : α}
    (h : x ∈ l.dropWhile p) : x ∈ l := by
  have hs := @List.takeWhile_append_dropWhile _ p l
  rw [← hs]
  exact List.mem_append_right _ h

theorem mem_of_tail {α : Type} {l : List α} {x : α} (h : x ∈ l.tail) : x ∈ l := by
  cases l with
  | nil => simp at h
  | cons a as => exact List.mem_cons_of_mem a h

theorem takeWhile_append_stop {α : Type} (p : α → Bool) {a b : List α}
    (ha : ∀ c ∈ a, p c = true) (hb : ∀ h0 : b ≠ [], p (b.head h0) = false) :
    (a ++ b).takeWhile p = a := by
  induction a with
  | nil =>
      cases b with
      | nil => rfl
      | cons x xs =>
          have hpx : p x = false := hb (by simp)
          simp [List.takeWhile_cons, hpx]
  | cons x xs ih =>
      simp only [List.cons_append, List.takeWhile_cons, ha x (by simp), if_pos]
      rw [ih (fun c hc => ha c (by simp [hc]))]

theorem dropWhile_append_stop {α : Type} (p : α → Bool) {a b : List α}
    (ha : ∀ c ∈ a, p c = true) (hb : ∀ h0 : b ≠ [], p (b.head h0) = false) :
    (a ++ b).dropWhile p = b := by
  induction a with
  | nil =>
      cases b with
      | nil => rfl
      | cons x xs =>
          have hpx : p x = false := hb (by simp)
          simp [List.dropWhile_cons, hpx]
  | cons x xs ih =>
      simp only [List.cons_append, List.dropWhile_cons, ha x (by simp), if_pos]
      exact ih (fun c hc => ha c (by simp [hc]))

theorem goodPair_key_value (l : List Char) (hl : ∀ c ∈ l, isLineBreak c = false) :
    goodPair (String.mk (pyLowerL (pyStripL (l.takeWhile (fun c => c != ':')))),
              String.mk (pyStripL ((l.dropWhile (fun c => c != ':')).tail))) := by
  refine ⟨?_, ?_, ?_, ?_, ?_, ?_⟩
  · intro c hc
    simp only [mk_data_str] at hc
    obtain ⟨c0, hc0, hceq⟩ := List.mem_map.mp hc
    have h1 : c0 ∈ l.takeWhile (fun c => c != ':') := mem_pyStripL hc0
    have h2 := List.mem_takeWhile_imp h1
    rw [← hceq]
    exact lowerChar_ne_colon (by simpa using h2)
  · show pyStripL (pyLowerL (pyStripL _)) = pyLowerL (pyStripL _)
    rw [pyStripL_lower_comm, pyStripL_idem]
  · show pyLowerL (pyLowerL (pyStripL _)) = pyLowerL (pyStripL _)
    rw [pyLowerL_idem]
  · intro c hc
    simp only [mk_data_str] at hc
    obtain ⟨c0, hc0, hceq⟩ := List.mem_map.mp hc
    have h1 : c0 ∈ l := mem_of_takeWhile (mem_pyStripL hc0)
    rw [← hceq, isLineBreak_lowerChar]
    exact hl c0 h1
  · show pyStripL (pyStripL _) = pyStripL _
    rw [pyStripL_idem]
  · intro c hc
    simp only [mk_data_str] at hc
    have h1 : c ∈ l := mem_of_dropWhile (mem_of_tail (mem_pyStripL hc))
    exact hl c h1

theorem metaInsert_good (m : List (String × String)) (k v : String)
    (hg : ∀ p ∈ m, goodPair p) (hnd : (m.map Prod.fst).Nodup) (hkv : goodPair (k, v)) :
    (∀ p ∈ Telegram.metaInsert m k v, goodPair p) ∧
      ((Telegram.metaInsert m k v).map Prod.fst).Nodup := by
  unfold Telegram.metaInsert
  split
  · constructor
    · intro p hp
      obtain ⟨q, hq, hqe⟩ := List.mem_map.mp hp
      by_cases hqk : q.1 == k
      · rw [if_pos hqk] at hqe
        rw [← hqe]
        exact hkv
      · rw [if_neg hqk] at hqe
        rw [← hqe]
        exact hg q hq
    · have hkeys : (m.map (fun p => if p.1 == k then (k, v) else p)).map Prod.fst =
          m.map Prod.fst := by
        rw [List.map_map]
        apply List.map_congr_left
        intro p _
        by_cases hqk : p.1 == k
        · simp only [Function.comp, if_pos hqk]
          exact (eq_of_beq hqk).symm
        · simp only [Function.comp, if_neg hqk]
      rw [hkeys]
      exact hnd
  · rename_i hany
    constructor
    · intro p hp
      rcases List.mem_append.mp hp with h | h
      · exact hg p h
      · rw [List.mem_singleton.mp h]
        exact hkv
    · rw [List.map_append]
      rw [List.nodup_append_comm]
      simp only [List.map_cons, List.map_nil, List.singleton_append, List.nodup_cons]
      constructor
      · intro hmem
        obtain ⟨p, hp, hpe⟩ := List.mem_map.mp hmem
        apply hany
        rw [List.any_eq_true]
        exact ⟨p, hp, by simp [hpe]⟩
      · exact hnd

theorem metaLine_good (acc : List (String × String)) (l : List Char)
    (hl : ∀ c ∈ l, isLineBreak c = false)
    (hg : ∀ p ∈ acc, goodPair p) (hnd : (acc.map Prod.fst).Nodup) :
    (∀ p ∈ Telegram.metaLine acc l, goodPair p) ∧
      ((Telegram.metaLine acc l).map Prod.fst).Nodup := by
  unfold Telegram.metaLine
  split
  · exact metaInsert_good acc _ _ hg hnd (goodPair_key_value l hl)
  · exact ⟨hg, hnd⟩

theorem foldl_metaLine_good (ls : List (List Char)) :
    ∀ acc, (∀ l ∈ ls, ∀ c ∈ l, isLineBreak c = false) →
      (∀ p ∈ acc, goodPair p) → ((acc.map Prod.fst).Nodup) →
      (∀ p ∈ ls.foldl Telegram.metaLine acc, goodPair p) ∧
        ((ls.foldl Telegram.metaLine acc).map Prod.fst).Nodup := by
  induction ls with
  | nil => intro acc _ hg hnd; exact ⟨hg, hnd⟩
  | cons l rest ih =>
      intro acc hbf hg hnd
      simp only [List.foldl_cons]
      obtain ⟨hg2, hnd2⟩ := metaLine_good acc l (hbf l (by simp)) hg hnd
      exact ih _ (fun x hx => hbf x (by simp [hx])) hg2 hnd2

theorem parse_good (t : String) :
    (∀ p ∈ (Telegram.parse_metadata t).1, goodPair p) ∧
      (((Telegram.parse_metadata t).1).map Prod.fst).Nodup := by
  show (∀ p ∈ ((splitlinesL t.data).takeWhile _).foldl Telegram.metaLine [], goodPair p) ∧ _
  apply foldl_metaLine_good
  · intro l hlm c hc
    exact splitlinesL_breakFree l (mem_of_takeWhile hlm) c hc
  · intro p hp
    simp at hp
  · simp

theorem metaLine_reconstruct (acc : List (String × String)) (k v : String)
    (hg : goodPair (k, v)) :
    Telegram.metaLine acc (k.data ++ ':' :: ' ' :: v.data) = Telegram.metaInsert acc k v := by
  obtain ⟨hnc, hks, hkl, -, hvs, -⟩ := hg
  have hcont : (k.data ++ ':' :: ' ' :: v.data).contains ':' = true := by
    rw [List.contains_eq_any_beq, List.any_eq_true]
    exact ⟨':', List.mem_append_right _ (by simp), by simp⟩
  have htake : (k.data ++ ':' :: ' ' :: v.data).takeWhile (fun c => c != ':') = k.data :=
    takeWhile_append_stop _ (fun c hc => by simpa using hnc c hc) (fun h0 => by simp)
  have hdrop : (k.data ++ ':' :: ' ' :: v.data).dropWhile (fun c => c != ':') =
      ':' :: ' ' :: v.data :=
    dropWhile_append_stop _ (fun c hc => by simpa using hnc c hc) (fun h0 => by simp)
  unfold Telegram.metaLine
  rw [if_pos hcont, htake, hdrop]
  have hkey : String.mk (pyLowerL (pyStripL k.data)) = k := by
    rw [hks, hkl]
  have hval : String.mk (pyStripL ((':' :: ' ' :: v.data : List Char).tail)) = v := by
    show String.mk (pyStripL (' ' :: v.data)) = v
    rw [pyStripL_cons_ws (by decide), hvs]
  rw [hkey, hval]

theorem metaInsert_fresh (m : List (String × String)) (k v : String)
    (h : ∀ p ∈ m, p.1 ≠ k) : Telegram.metaInsert m k v = m ++ [(k, v)] := by
  unfold Telegram.metaInsert
  rw [if_neg]
  rw [List.any_eq_true]
  rintro ⟨p, hp, hpe⟩
  exact h p hp (by simpa using hpe)

theorem foldl_metaLine_lines (m : List (String × String)) :
    ∀ acc, (∀ p ∈ m, goodPair p) → (∀ q ∈ acc, ∀ p ∈ m, q.1 ≠ p.1) →
      (m.map Prod.fst).Nodup →
      (m.map (fun p => p.1.data ++ ':' :: ' ' :: p.2.data)).foldl Telegram.metaLine acc =
        acc ++ m := by
  induction m with
  | nil => intro acc _ _ _; simp
  | cons p rest ih =>
      intro acc hg hdisj hnd
      simp only [List.map_cons, List.foldl_cons]
      have hgp : goodPair (p.1, p.2) := hg p (by simp)
      rw [metaLine_reconstruct acc p.1 p.2 hgp]
      rw [metaInsert_fresh acc p.1 p.2 (fun q hq => hdisj q hq p (by simp))]
      rw [ih (acc ++ [(p.1, p.2)]) (fun q hq => hg q (by simp [hq])) ?_ ?_]
      · simp
      · intro q hq r hr
        rcases List.mem_append.mp hq with h' | h'
        · exact hdisj q h' r (by simp [hr])
        · rw [List.mem_singleton.mp h']
          show p.1 ≠ r.1
          simp only [List.map_cons, List.nodup_cons] at hnd
          intro he
          exact hnd.1 (he ▸ List.mem_map.mpr ⟨r, hr, rfl⟩)
      · simp only [List.map_cons, List.nodup_cons] at hnd
        exact hnd.2

theorem reconstruct_lines_break_free (m : List (String × String))
    (hg : ∀ p ∈ m, goodPair p) :
    ∀ l ∈ m.map (fun p => p.1.data ++ ':' :: ' ' :: p.2.data),
      (∀ c ∈ l, isLineBreak c = false) ∧ l ≠ [] := by
  intro l hl
  obtain ⟨p, hp, hpe⟩ := List.mem_map.mp hl
  obtain ⟨-, -, -, hkb, -, hvb⟩ := hg p hp
  constructor
  · intro c hc
    rw [← hpe] at hc
    rcases List.mem_append.mp hc with h' | h'
    · exact hkb c h'
    · rcases List.mem_cons.mp h' with h'' | h''
      · rw [h'']; decide
      · rcases List.mem_cons.mp h'' with h3 | h3
        · rw [h3]; decide
        · exact hvb c h3
  · rw [← hpe]
    intro h0
    have : (':' : Char) ∈ (p.1.data ++ ':' :: ' ' :: p.2.data) :=
      List.mem_append_right _ (by simp)
    rw [h0] at this
    simp at this

theorem takeWhile_all {α : Type} {p : α → Bool} {l : List α}
    (h : ∀ x ∈ l, p x = true) : l.takeWhile p = l := by
  induction l with
  | nil => rfl
  | cons x xs ih =>
      simp only [List.takeWhile_cons, h x (by simp), if_pos]
      rw [ih (fun y hy => h y (by simp [hy]))]

/-- C7 core: re-parsing the reconstructed header yields the same mapping. -/
theorem parse_reconstruct (t : String) :
    (Telegram.parse_metadata (reconstructMeta (Telegram.parse_metadata t).1)).1 =
      (Telegram.parse_metadata t).1 := by
  obtain ⟨hg, hnd⟩ := parse_good t
  set m := (Telegram.parse_metadata t).1 with hm
  have hbf := reconstruct_lines_break_free m hg
  have hlines : splitlinesL (reconstructMeta m).data =
      m.map (fun p => p.1.data ++ ':' :: ' ' :: p.2.data) := by
    show splitlinesL (joinNlL _) = _
    exact splitlines_join _ hbf
  have htake : (m.map (fun p => p.1.data ++ ':' :: ' ' :: p.2.data)).takeWhile
      (fun l => !(pyStripL l).isEmpty) = m.map (fun p => p.1.data ++ ':' :: ' ' :: p.2.data) := by
    apply takeWhile_all
    intro l hl
    cases hemp : (pyStripL l).isEmpty with
    | false => rfl
    | true =>
        exfalso
        have h0 : pyStripL l = [] := List.isEmpty_iff.mp hemp
        have hall := pyStripL_eq_nil_iff.mp h0
        have hcol : (':' : Char) ∈ l := by
          obtain ⟨p, hp, hpe⟩ := List.mem_map.mp hl
          rw [← hpe]
          exact List.mem_append_right _ (by simp)
        have := hall ':' hcol
        exact absurd this (by decide)
  show ((splitlinesL (reconstructMeta m).data).takeWhile _).foldl Telegram.metaLine [] = m
  rw [hlines, htake, foldl_metaLine_lines m [] hg (by simp) hnd]
  simp

/-! ### Additional dispatch-loop lemmas -/

theorem string_data_append (a b : String) : (a ++ b).data = a.data ++ b.data := rfl

theorem string_eq_of_data {a b : String} (h : a.data = b.data) : a = b := by
  cases a
  cases b
  exact congrArg String.mk h

theorem postLoop_exit (siteurl : String) (api : Nat → Nat) :
    ∀ (posts : List (String × String)) (store : Option String) (k : Nat),
      ((Telegram.postLoop siteurl api posts store k).1 = 0 ↔
        ∀ i, i < posts.length → api (k + i) = 200) ∧
      ((Telegram.postLoop siteurl api posts store k).1 = 0 ∨
        (Telegram.postLoop siteurl api posts store k).1 = 1) := by
  intro posts
  induction posts with
  | nil =>
      intro store k
      simp [Telegram.postLoop]
  | cons p ps ih =>
      intro store k
      by_cases hapi : api k = 200
      · have heq : Telegram.postLoop siteurl api (p :: ps) store k =
            ((Telegram.postLoop siteurl api ps
                (some (Telegram.save_sent_post (Telegram.resolveSlug p) store)) (k + 1)).1,
             Telegram.messageOf siteurl p ::
               (Telegram.postLoop siteurl api ps
                 (some (Telegram.save_sent_post (Telegram.resolveSlug p) store)) (k + 1)).2.1,
             (Telegram.postLoop siteurl api ps
               (some (Telegram.save_sent_post (Telegram.resolveSlug p) store)) (k + 1)).2.2) := by
          simp [Telegram.postLoop, hapi]
        obtain ⟨ih1, ih2⟩ := ih (some (Telegram.save_sent_post (Telegram.resolveSlug p) store)) (k + 1)
        constructor
        · rw [heq]
          simp only []
          rw [ih1]
          constructor
          · intro hall i hi
            cases i with
            | zero => simpa using hapi
            | succ j =>
                have := hall j (by simp at hi; omega)
                rw [show k + (j + 1) = k + 1 + j by omega]
                exact this
          · intro hall i hi
            rw [show k + 1 + i = k + (i + 1) by omega]
            exact hall (i + 1) (by simp; omega)
        · rw [heq]
          exact ih2
      · have heq : Telegram.postLoop siteurl api (p :: ps) store k =
            (1, [Telegram.messageOf siteurl p], store) := by
          simp [Telegram.postLoop, hapi]
        rw [heq]
        constructor
        · simp only []
          constructor
          · intro h0
            exact absurd h0 (by simp)
          · intro hall
            exact absurd (by simpa using hall 0 (by simp)) hapi
        · simp

theorem mem_joinNlL_head {c : Char} {l0 : List Char} {rest : List (List Char)}
    (h : c ∈ l0) : c ∈ joinNlL (l0 :: rest) := by
  cases rest with
  | nil => exact h
  | cons l2 rest2 =>
      rw [show joinNlL (l0 :: l2 :: rest2) = l0 ++ '\n' :: joinNlL (l2 :: rest2) from rfl]
      exact List.mem_append_left _ h

theorem intercalate_seven (p1 p2 p3 p4 : String) :
    String.intercalate "\n" [p1, "", p2, "", p3, "", p4] =
      p1 ++ "\n\n" ++ p2 ++ "\n\n" ++ p3 ++ "\n\n" ++ p4 := by
  apply string_eq_of_data
  simp [String.intercalate, String.intercalate.go, string_data_append, List.append_assoc]

/-! ### The claims -/

/-- C1 (the code contradicts the property): the placeholder mechanism of
`convert_markdown_to_telegram_html` restores code blocks and inline code
*before* the inline-style passes run (lines 121-131), so a literal
`**bold**` inside a fence or an inline code span *is* bold-substituted:
the fence body renders as `<pre><b>bold</b></pre>` instead of the literal
`<pre>**bold**</pre>` the property requires.  The spec's `code()` scenario
only works because `code()` contains no style delimiters. -/
theorem c1_code_styles_inside_code :
    Telegram.convert_markdown_to_telegram_html "```\n**bold**\n```" = "<pre><b>bold</b></pre>" ∧
    Telegram.convert_markdown_to_telegram_html "`**k**`" = "<code><b>k</b></code>" ∧
    Telegram.convert_markdown_to_telegram_html "`code()`" = "<code>code()</code>" :=
  ⟨by decide, by decide, by decide⟩

/-- C2 counterexample: `"slug: x"` has no blank line, yet `parse_metadata`
returns the whole (stripped) text as the body, not the empty string, because
`body_start` keeps its initial value `0` when the loop never breaks. -/
theorem c2_counterexample :
    (∀ l ∈ splitlinesL ("slug: x").data, pyStripL l ≠ []) ∧
    (Telegram.parse_metadata "slug: x").2 = "slug: x" ∧
    (Telegram.parse_metadata "slug: x").2 ≠ "" :=
  ⟨by decide, by decide, by decide⟩

/-- C2 amended: when no blank line occurs, every line is scanned as
metadata, but the body is the whole file re-joined and stripped — so the
body is empty iff the input has no lines at all, not unconditionally. -/
theorem c2_no_blank_line (t : String)
    (h : ∀ l ∈ splitlinesL t.data, pyStripL l ≠ []) :
    (Telegram.parse_metadata t).1 = (splitlinesL t.data).foldl Telegram.metaLine [] ∧
    (Telegram.parse_metadata t).2 = String.mk (pyStripL (joinNlL (splitlinesL t.data))) ∧
    ((Telegram.parse_metadata t).2 = "" ↔ splitlinesL t.data = []) := by
  have hfind : (splitlinesL t.data).findIdx? (fun l => (pyStripL l).isEmpty) = none := by
    rw [List.findIdx?_eq_none_iff]
    intro l hl
    simp [h l hl]
  have htake : (splitlinesL t.data).takeWhile (fun l => !(pyStripL l).isEmpty) =
      splitlinesL t.data := by
    apply takeWhile_all
    intro l hl
    simp [h l hl]
  have hbody : (Telegram.parse_metadata t).2 =
      String.mk (pyStripL (joinNlL (splitlinesL t.data))) := by
    show String.mk (pyStripL (joinNlL ((splitlinesL t.data).drop _))) = _
    rw [hfind]
    simp
  refine ⟨?_, hbody, ?_⟩
  · show ((splitlinesL t.data).takeWhile _).foldl Telegram.metaLine [] = _
    rw [htake]
  · rw [hbody]
    constructor
    · intro he
      by_contra hne
      cases hlines : splitlinesL t.data with
      | nil => exact hne hlines
      | cons l0 rest =>
          have hl0 := h l0 (by rw [hlines]; simp)
          have hex : ¬ ∀ c ∈ l0, isPySpace c :=
            fun hall => hl0 (pyStripL_eq_nil_iff.mpr hall)
          push_neg at hex
          obtain ⟨c, hc, hcw⟩ := hex
          have hcj : c ∈ joinNlL (splitlinesL t.data) := by
            rw [hlines]
            exact mem_joinNlL_head hc
          have hdata : pyStripL (joinNlL (splitlinesL t.data)) = [] := by
            have := congrArg String.data he
            simpa using this
          exact hcw (pyStripL_eq_nil_iff.mp hdata c hcj)
    · intro he
      rw [he]
      rfl

/-- C3: over the dispatch loop of a run, a slug is in the persisted record
afterwards iff it was there before or it is the slug of a post whose API
call in this run returned status 200 (`succSlugs` is exactly the prefix of
posts delivered before the first failure); in particular slugs recorded
before a later failure stay recorded. -/
theorem c3_store_iff (siteurl : String) (api : Nat → Nat)
    (posts : List (String × String)) (store : Option String)
    (hall : ∀ x ∈ Telegram.load_sent_posts store, storable x)
    (hslugs : ∀ p ∈ posts, storable (Telegram.resolveSlug p)) :
    ∀ s, s ∈ Telegram.load_sent_posts (Telegram.postLoop siteurl api posts store 0).2.2 ↔
      s ∈ Telegram.load_sent_posts store ∨ s ∈ Telegram.succSlugs api 0 posts :=
  postLoop_store siteurl api posts store 0 hall hslugs

/-- C3 witness: two posts, the first call succeeds, the second fails with
status 500: the first slug is recorded, the second is not. -/
theorem c3_witness :
    "a" ∈ Telegram.load_sent_posts
      (Telegram.postLoop "s" (fun k => if k = 0 then 200 else 500)
        [("a", "t: x"), ("b", "t: y")] none 0).2.2 ∧
    "b" ∉ Telegram.load_sent_posts
      (Telegram.postLoop "s" (fun k => if k = 0 then 200 else 500)
        [("a", "t: x"), ("b", "t: y")] none 0).2.2 := by
  have h := c3_store_iff "s" (fun k => if k = 0 then 200 else 500)
    [("a", "t: x"), ("b", "t: y")] none (by decide) (by decide)
  constructor
  · exact (h "a").mpr (Or.inr (by decide))
  · intro hmem
    rcases (h "b").mp hmem with h' | h'
    · exact absurd h' (by decide)
    · exact absurd h' (by decide)

/-- C4 counterexample: status 201 is in the 2xx range, yet the dispatcher
treats it as a failure: exit code 1, the slug is not recorded, and the
second post is never attempted (one message sent). -/
theorem c4_counterexample :
    (200 ≤ 201 ∧ 201 < 300) ∧
    (Telegram.postLoop "s" (fun _ => 201) [("a", "t: x"), ("b", "t: y")] none 0).1 = 1 ∧
    (Telegram.postLoop "s" (fun _ => 201) [("a", "t: x"), ("b", "t: y")] none 0).2.2 = none ∧
    (Telegram.postLoop "s" (fun _ => 201) [("a", "t: x"), ("b", "t: y")] none 0).2.1.length = 1 :=
  ⟨by decide, by decide, by decide, by decide⟩

/-- C4 amended: the success test is `status == 200` exactly, not the 2xx
range: the run exits 0 iff every call returns 200; the exit code is always
0 or 1; and when the first call returns anything else the loop stops after
that single message with exit 1 and the store unchanged. -/
theorem c4_success_only_200 (siteurl : String) (api : Nat → Nat)
    (posts : List (String × String)) (store : Option String) (k : Nat) :
    ((Telegram.postLoop siteurl api posts store k).1 = 0 ↔
      ∀ i, i < posts.length → api (k + i) = 200) ∧
    ((Telegram.postLoop siteurl api posts store k).1 = 0 ∨
      (Telegram.postLoop siteurl api posts store k).1 = 1) ∧
    (∀ p ps, posts = p :: ps → api k ≠ 200 →
      Telegram.postLoop siteurl api posts store k =
        (1, [Telegram.messageOf siteurl p], store)) := by
  refine ⟨(postLoop_exit siteurl api posts store k).1,
    (postLoop_exit siteurl api posts store k).2, ?_⟩
  rintro p ps rfl hapi
  simp [Telegram.postLoop, hapi]

/-- C4 witness: a 404 on the only post gives exit 1, one message, no store
change. -/
theorem c4_witness :
    Telegram.postLoop "s" (fun _ => 404) [("a", "t: x")] none 0 =
      (1, [Telegram.messageOf "s" ("a", "t: x")], none) :=
  (c4_success_only_200 "s" (fun _ => 404) [("a", "t: x")] none 0).2.2
    ("a", "t: x") [] rfl (by decide)

/-- C5: a slug just saved is always in the reloaded store; a post selected
as pending never has a slug in the store; and the spec's scenario — store
`hello`, a single `hello.md` — yields exit 0 with no API call, for every
API oracle. -/
theorem c5_sent_never_pending :
    (∀ (slug : String) (store : Option String), storable slug →
      (∀ x ∈ Telegram.load_sent_posts store, storable x) →
      slug ∈ Telegram.load_sent_posts (some (Telegram.save_sent_post slug store))) ∧
    (∀ (fs : Telegram.FS) (p : String × String), p ∈ Telegram.get_unsent_posts fs →
      Telegram.resolveSlug p ∉ Telegram.load_sent_posts fs.sentFile) ∧
    (∀ api : Nat → Nat, Telegram.mainRun ⟨none, some "t", some "c", none⟩
        ⟨true, [("hello", "title: Hello\nslug: hello\n\nBody.")], some "hello"⟩ api =
      (0, [], some "hello")) := by
  refine ⟨?_, ?_, ?_⟩
  · intro slug store hs hall
    exact (mem_load_save slug slug store hs hall).mpr (Or.inl rfl)
  · intro fs p hp hmem
    unfold Telegram.get_unsent_posts at hp
    split at hp
    · have hpred := (List.mem_filter.mp hp).2
      rw [Bool.not_eq_eq_eq_not, Bool.not_true] at hpred
      have := List.elem_iff.mpr hmem
      rw [show (Telegram.load_sent_posts fs.sentFile).contains (Telegram.resolveSlug p) =
          (Telegram.load_sent_posts fs.sentFile).elem (Telegram.resolveSlug p) from rfl,
        this] at hpred
      simp at hpred
    · simp at hp
  · intro api
    rfl

/-- C5 witness. -/
theorem c5_witness :
    "hello" ∈ Telegram.load_sent_posts (some (Telegram.save_sent_post "hello" none)) ∧
    Telegram.mainRun ⟨none, some "t", some "c", none⟩
        ⟨true, [("hello", "title: Hello\nslug: hello\n\nBody.")], some "hello"⟩
        (fun _ => 200) =
      (0, [], some "hello") :=
  ⟨c5_sent_never_pending.1 "hello" none (by decide) (by decide),
   c5_sent_never_pending.2.2 (fun _ => 200)⟩

/-- C6: with the skip flag unset and a missing (or empty) bot token or chat
id, `main` returns exit code 1 with no API call and the store untouched —
for every filesystem state, so the result does not depend on the posts
directory at all. -/
theorem c6_missing_credentials (env : Telegram.Env) (fs : Telegram.FS) (api : Nat → Nat)
    (hskip : env.skip ≠ some "1")
    (hcred : Telegram.truthy env.botToken = false ∨ Telegram.truthy env.chatId = false) :
    Telegram.mainRun env fs api = (1, [], fs.sentFile) := by
  unfold Telegram.mainRun
  rw [if_neg hskip]
  rcases hcred with h | h <;> simp [h]

/-- C6 witness: unset token, posts present — exit 1, nothing sent. -/
theorem c6_witness :
    Telegram.mainRun ⟨none, none, some "c", none⟩ ⟨true, [("a", "t: x")], none⟩
        (fun _ => 200) = (1, [], none) :=
  c6_missing_credentials _ _ _ (by decide) (Or.inl (by decide))

/-- C7: parsing the header reconstructed from a parsed mapping as
`"key: value"` lines yields the same mapping. -/
theorem c7_parse_idempotent (t : String) :
    (Telegram.parse_metadata (reconstructMeta (Telegram.parse_metadata t).1)).1 =
      (Telegram.parse_metadata t).1 :=
  parse_reconstruct t

/-- C7 witness on a header with duplicate-case keys and a colon in a value. -/
theorem c7_witness :
    (Telegram.parse_metadata
        (reconstructMeta (Telegram.parse_metadata "A: 1\nB: c:d\n\nbody").1)).1 =
      (Telegram.parse_metadata "A: 1\nB: c:d\n\nbody").1 :=
  c7_parse_idempotent "A: 1\nB: c:d\n\nbody"

/-- C8: the message is the newline-joined concatenation of the bold title
(defaulting to "New post"), a blank line, the rendered body, a blank line,
the icon-plus-"Read more" link line, a blank line, and the signature; and
the spec's scenario renders its body line as `Body <b>bold</b> text.`. -/
theorem c8_build_message (meta : List (String × String)) (body url : String) :
    (Telegram.build_message meta body url =
      "<b>" ++ Telegram.escape_html ((Telegram.metaGet meta "title").getD "New post") ++
        "</b>" ++ "\n\n" ++ Telegram.convert_markdown_to_telegram_html body ++ "\n\n" ++
        (Telegram.linkIcon ++ " <a href=\"" ++ url ++ "\">Read more</a>") ++ "\n\n" ++
        "@lab_log") ∧
    (Telegram.build_message
        (Telegram.parse_metadata "title: Hello\nslug: hello\n\nBody **bold** text.").1
        (Telegram.parse_metadata "title: Hello\nslug: hello\n\nBody **bold** text.").2
        "https://x/posts/hello/" =
      "<b>Hello</b>\n\nBody <b>bold</b> text.\n\n" ++ Telegram.linkIcon ++
        " <a href=\"https://x/posts/hello/\">Read more</a>\n\n@lab_log") := by
  constructor
  · rw [show Telegram.build_message meta body url =
        String.intercalate "\n"
          ["<b>" ++ Telegram.escape_html ((Telegram.metaGet meta "title").getD "New post") ++
            "</b>", "", Telegram.convert_markdown_to_telegram_html body, "",
           Telegram.linkIcon ++ " <a href=\"" ++ url ++ "\">Read more</a>", "", "@lab_log"]
        from rfl]
    rw [intercalate_seven]
  · decide

/-- C9: an existing but empty (or whitespace-only) store file loads as the
singleton set containing the empty string, so a post whose resolved slug is
empty is treated as already sent. -/
theorem c9_empty_store (c : String) (h : pyStripL c.data = []) :
    Telegram.load_sent_posts (some c) = [""] ∧
    (∀ fs : Telegram.FS, fs.sentFile = some c →
      ∀ p ∈ fs.posts, Telegram.resolveSlug p = "" →
        p ∉ Telegram.get_unsent_posts fs) := by
  have h1 : Telegram.load_sent_posts (some c) = [""] := by
    show (splitOnNl (pyStripL c.data)).map String.mk = [""]
    rw [h]
    rfl
  refine ⟨h1, ?_⟩
  intro fs hfs p _ hslug hmem
  unfold Telegram.get_unsent_posts at hmem
  split at hmem
  · have hpred := (List.mem_filter.mp hmem).2
    rw [hslug, hfs, h1] at hpred
    exact absurd hpred (by decide)
  · simp at hmem

/-- C9 witness: an empty store file plus a post whose `slug:` value is
empty — the post is not pending. -/
theorem c9_witness :
    Telegram.load_sent_posts (some "") = [""] ∧
    ("post", "slug:\n\nbody") ∉
      Telegram.get_unsent_posts ⟨true, [("post", "slug:\n\nbody")], some ""⟩ := by
  have h := c9_empty_store "" (by decide)
  exact ⟨h.1, h.2 ⟨true, [("post", "slug:\n\nbody")], some ""⟩ rfl _ (by simp) (by decide)⟩

/-- C10: both scripts extract the same metadata mapping from the same file
content. -/
theorem c10_parsers_agree (t : String) :
    Newsletter.parse_metadata t = (Telegram.parse_metadata t).1 := rfl

/-- C10 witness. -/
theorem c10_witness :
    Newsletter.parse_metadata "A: 1\nnocolon\nB: 2\n\nbody" =
      (Telegram.parse_metadata "A: 1\nnocolon\nB: 2\n\nbody").1 :=
  c10_parsers_agree "A: 1\nnocolon\nB: 2\n\nbody"

/-- C2 amended witness: at the input with no blank line the amended
statement applies and the body is non-empty. -/
theorem c2_amended_witness :
    (Telegram.parse_metadata "slug: x").1 =
      (splitlinesL ("slug: x").data).foldl Telegram.metaLine [] ∧
    (Telegram.parse_metadata "slug: x").2 ≠ "" := by
  have h := c2_no_blank_line "slug: x" (by decide)
  exact ⟨h.1, fun he => absurd (h.2.2.mp he) (by decide)⟩
